import Mathlib

/-!
Shallow embedding of the PostgreSQL job store of `seesaw-rs`
(`crates/seesaw-job-postgres/src/lib.rs`).

A database is a list of job rows (the `jobs` table; `id` is the primary
key, so well-formed databases have pairwise distinct ids).  Timestamps are
integers counting milliseconds, matching the store's mix of
`Duration::milliseconds(lease_ms)` and `Duration::seconds(delay_secs)`:
one second is `1000` model units.  Each SQL statement of the source
becomes one pure function from the database to the database (plus its
result), reflecting the fact that every statement / transaction in the
source executes atomically.
-/

namespace Seesaw

/-- `job_status` enum of the schema:
`('pending', 'running', 'succeeded', 'failed', 'dead_letter')`. -/
inductive Status where
  | pending
  | running
  | succeeded
  | failed
  | dead_letter
deriving DecidableEq, Repr

/-- `error_kind` enum of the schema: `('retryable', 'non_retryable')`. -/
inductive ErrorKind where
  | retryable
  | non_retryable
deriving DecidableEq, Repr

/-- `seesaw::job::FailureKind`.  Its two variants are determined by the
`match kind` in `PgJobStore::mark_failed` and by the guard
`FailureKind::Retryable if attempt < max_retries`. -/
inductive FailureKind where
  | Retryable
  | NonRetryable
deriving DecidableEq, Repr

/-- One row of the `jobs` table, fields exactly as in the schema comment
of the crate (UUIDs are modelled as naturals, JSONB payloads as strings,
timestamps as integer milliseconds). -/
structure JobRow where
  id : Nat
  job_type : String
  payload : String
  version : Int
  status : Status
  attempt : Int
  max_retries : Int
  priority : Int
  run_at : Int
  worker_id : Option String
  lease_expires_at : Option Int
  error_message : Option String
  error_kind : Option ErrorKind
  created_at : Int
  updated_at : Int
deriving DecidableEq, Repr

/-- `seesaw::job::ClaimedJob`: the five columns returned by
`claim_ready`'s `RETURNING id, job_type, payload, version, attempt`. -/
structure ClaimedJob where
  id : Nat
  job_type : String
  payload : String
  version : Int
  attempt : Int
deriving DecidableEq, Repr

/-- The `jobs` table. -/
abbrev Db := List JobRow

/-- `WHERE status = 'pending' AND run_at <= NOW()` of `claim_ready`. -/
def ready (now : Int) (r : JobRow) : Bool :=
  decide (r.status = Status.pending) && decide (r.run_at ≤ now)

/-- `ORDER BY priority ASC, run_at ASC` of `claim_ready` (ties beyond the
two sort keys are resolved by list position, as a deterministic stand-in
for the unspecified SQL tie order). -/
def claimLE (a b : JobRow) : Prop :=
  a.priority < b.priority ∨ (a.priority = b.priority ∧ a.run_at ≤ b.run_at)

instance : DecidableRel claimLE := fun a b => by
  unfold claimLE; infer_instance

instance : IsTotal JobRow claimLE := by
  constructor
  intro a b
  rcases lt_trichotomy a.priority b.priority with h | h | h
  · exact Or.inl (Or.inl h)
  · rcases le_total a.run_at b.run_at with h' | h'
    · exact Or.inl (Or.inr ⟨h, h'⟩)
    · exact Or.inr (Or.inr ⟨h.symm, h'⟩)
  · exact Or.inr (Or.inl h)

instance : IsTrans JobRow claimLE := by
  constructor
  intro a b c hab hbc
  rcases hab with h1 | ⟨h1, h1'⟩
  · rcases hbc with h2 | ⟨h2, _⟩
    · exact Or.inl (h1.trans h2)
    · exact Or.inl (h2 ▸ h1)
  · rcases hbc with h2 | ⟨h2, h2'⟩
    · exact Or.inl (h1 ▸ h2)
    · exact Or.inr ⟨h1.trans h2, h1'.trans h2'⟩

/-- The `claimable` CTE: pending rows due to run, ordered by
`(priority ASC, run_at ASC)`, limited to `limit`. -/
def selectRows (db : Db) (now : Int) (limit : Nat) : List JobRow :=
  (List.insertionSort claimLE (db.filter (ready now))).take limit

/-- Projection used by `RETURNING id, job_type, payload, version, attempt`
(the `UPDATE` touches none of these five columns, so the post-update
values it returns equal the pre-update ones). -/
def toClaimed (r : JobRow) : ClaimedJob :=
  ⟨r.id, r.job_type, r.payload, r.version, r.attempt⟩

/-- `PgJobStore::claim_ready`: the single `WITH claimable ... UPDATE`
statement.  Selected rows get `status = 'running'`, `worker_id = $2`,
`lease_expires_at = now + lease_ms`, `updated_at = NOW()`. -/
def claim_ready (db : Db) (worker_id : String) (limit : Nat)
    (now lease_ms : Int) : List ClaimedJob × Db :=
  let selected := selectRows db now limit
  let ids := selected.map JobRow.id
  (selected.map toClaimed,
   db.map fun r =>
     if r.id ∈ ids then
       { r with
         status := Status.running
         worker_id := some worker_id
         lease_expires_at := some (now + lease_ms)
         updated_at := now }
     else r)

/-- `PgJobStore::mark_succeeded`: an unconditional
`UPDATE jobs SET status = 'succeeded', updated_at = NOW() WHERE id = $1`. -/
def mark_succeeded (db : Db) (job_id : Nat) (now : Int) : Db :=
  db.map fun r =>
    if r.id = job_id then
      { r with status := Status.succeeded, updated_at := now }
    else r

/-- The string bound for `error_kind` in `mark_failed`'s dead-letter
branch: `match kind { Retryable => "retryable", NonRetryable => "non_retryable" }`. -/
def error_kind_of : FailureKind → ErrorKind
  | FailureKind.Retryable => ErrorKind.retryable
  | FailureKind.NonRetryable => ErrorKind.non_retryable

/-- `attempt as u32`: Rust's `as` cast reduces the `i32` value
modulo `2^32`. -/
def u32_cast (a : Int) : Nat := (a % (2 ^ 32 : Int)).toNat

/-- Two's-complement wrap-around of a natural into `i64`, the release-mode
behaviour of overflowing `i64` arithmetic in Rust. -/
def wrap_i64 (n : Nat) : Int := ((n : Int) + 2 ^ 63) % 2 ^ 64 - 2 ^ 63

/-- `let delay_secs = 2i64.pow(attempt as u32).min(3600)` of `mark_failed`
(seconds). -/
def delay_secs (attempt : Int) : Int :=
  min (wrap_i64 (2 ^ u32_cast attempt)) 3600

/-- The range on which `chrono::Duration::seconds` is defined: it panics
when its argument is more than `i64::MAX / 1000` or less than
`-i64::MAX / 1000` seconds (the `TimeDelta` millisecond bounds). -/
def duration_seconds_ok (s : Int) : Bool :=
  decide (-9223372036854775 ≤ s) && decide (s ≤ 9223372036854775)

/-- `PgJobStore::mark_failed`: the transaction that reads
`(attempt, max_retries)` under `FOR UPDATE`, then either reschedules with
exponential backoff or dead-letters.  `none` models a transaction that
commits nothing: `fetch_one` failing on a missing row, or the retry
branch panicking — `Duration::seconds(delay_secs)` panics when its
argument is outside chrono's bounds, which happens exactly at
`attempt = 63` where the wrapped power is `i64::MIN` (debug builds
already panic inside `pow` there) — after which the dropped `sqlx`
transaction guard rolls everything back. -/
def mark_failed (db : Db) (job_id : Nat) (error : String)
    (kind : FailureKind) (now : Int) : Option Db :=
  match db.find? (fun r => r.id == job_id) with
  | none => none
  | some job =>
    match kind with
    | FailureKind.Retryable =>
      if job.attempt < job.max_retries then
        let delay := delay_secs job.attempt
        if duration_seconds_ok delay then
          let retry_at := now + 1000 * delay
          some (db.map fun r =>
          if r.id = job_id then
            { r with
              status := Status.pending
              run_at := retry_at
              attempt := r.attempt + 1
              error_message := some error
              error_kind := some ErrorKind.retryable
              worker_id := none
              lease_expires_at := none
              updated_at := now }
          else r)
        else
          none
      else
        some (db.map fun r =>
          if r.id = job_id then
            { r with
              status := Status.dead_letter
              error_message := some error
              error_kind := some (error_kind_of kind)
              updated_at := now }
          else r)
    | FailureKind.NonRetryable =>
      some (db.map fun r =>
        if r.id = job_id then
          { r with
            status := Status.dead_letter
            error_message := some error
            error_kind := some (error_kind_of kind)
            updated_at := now }
        else r)

/-- `PgJobStore::heartbeat`:
`UPDATE jobs SET lease_expires_at = $1, updated_at = NOW()
 WHERE id = $2 AND status = 'running'`; the call itself always returns
`Ok(())`, matching this function being total. -/
def heartbeat (db : Db) (job_id : Nat) (now lease_ms : Int) : Db :=
  db.map fun r =>
    if r.id = job_id ∧ r.status = Status.running then
      { r with lease_expires_at := some (now + lease_ms), updated_at := now }
    else r

/-- `WHERE status = 'running' AND lease_expires_at < NOW()` of
`reclaim_expired` (a NULL lease compares as unknown, so NULL-lease rows
are not selected). -/
def expired (now : Int) (r : JobRow) : Bool :=
  decide (r.status = Status.running) &&
    (r.lease_expires_at.elim false fun t => decide (t < now))

/-- `PgJobStore::reclaim_expired`: resets expired running rows to pending
and returns `rows_affected()`. -/
def reclaim_expired (db : Db) (now : Int) : Nat × Db :=
  (db.countP (expired now),
   db.map fun r =>
     if expired now r then
       { r with
         status := Status.pending
         worker_id := none
         lease_expires_at := none
         updated_at := now }
     else r)

/-- `QueueStats` of the crate (counts modelled as naturals). -/
structure QueueStats where
  pending : Nat
  running : Nat
  succeeded : Nat
  failed : Nat
  dead_letter : Nat
deriving DecidableEq, Repr

/-- `PgJobStore::stats`: per-status `COUNT(*) FILTER` aggregates. -/
def stats (db : Db) : QueueStats :=
  { pending := db.countP fun r => decide (r.status = Status.pending)
    running := db.countP fun r => decide (r.status = Status.running)
    succeeded := db.countP fun r => decide (r.status = Status.succeeded)
    failed := db.countP fun r => decide (r.status = Status.failed)
    dead_letter := db.countP fun r => decide (r.status = Status.dead_letter) }

/-- One invocation of a store operation, carrying the wall-clock instant
(and lease length where the source uses `default_lease_ms`) at which it
runs. -/
inductive StoreOp where
  | claim (worker_id : String) (limit : Nat) (now lease_ms : Int)
  | succeed (job_id : Nat) (now : Int)
  | fail (job_id : Nat) (error : String) (kind : FailureKind) (now : Int)
  | beat (job_id : Nat) (now lease_ms : Int)
  | reclaim (now : Int)

/-- Effect of one store operation on the table.  A failing `mark_failed`
transaction (missing row) rolls back, leaving the table unchanged. -/
def applyOp (op : StoreOp) (db : Db) : Db :=
  match op with
  | StoreOp.claim w lim now lms => (claim_ready db w lim now lms).2
  | StoreOp.succeed id now => mark_succeeded db id now
  | StoreOp.fail id e k now => (mark_failed db id e k now).getD db
  | StoreOp.beat id now lms => heartbeat db id now lms
  | StoreOp.reclaim now => (reclaim_expired db now).2

/-- Effect of a sequence of store operations, first operation first. -/
def applyOps (ops : List StoreOp) (db : Db) : Db :=
  ops.foldl (fun d op => applyOp op d) db

/-- Lease invariant of the spec's data model:
`status = running ⇔ worker_id ≠ null ⇔ lease_expires_at ≠ null`,
for every row of the table. -/
def leaseInv (db : Db) : Prop :=
  ∀ r ∈ db, (r.status = Status.running ↔ r.worker_id ≠ none) ∧
    (r.status = Status.running ↔ r.lease_expires_at ≠ none)

instance : DecidablePred leaseInv := fun db => by
  unfold leaseInv; infer_instance

/-- A sample pending row with the schema's default column values. -/
def row0 : JobRow where
  id := 1
  job_type := "email:send"
  payload := "p"
  version := 1
  status := Status.pending
  attempt := 1
  max_retries := 3
  priority := 0
  run_at := 0
  worker_id := none
  lease_expires_at := none
  error_message := none
  error_kind := none
  created_at := 0
  updated_at := 0

/-- A sample running row holding a live lease. -/
def rowRun : JobRow :=
  { row0 with
    status := Status.running
    worker_id := some "w1"
    lease_expires_at := some 60000 }

/-- A sample dead-lettered row. -/
def rowDead : JobRow :=
  { row0 with status := Status.dead_letter }

/-- A sample running row whose lease expired at time `40`. -/
def rowExp : JobRow :=
  { row0 with
    status := Status.running
    worker_id := some "w1"
    lease_expires_at := some 40 }

/-- The expired sample row after a reclaim at time `100`. -/
def rowExpReset : JobRow :=
  { rowExp with status := Status.pending, worker_id := none,
                lease_expires_at := none, updated_at := 100 }

/-- A second pending row (distinct primary key, lower urgency). -/
def row2 : JobRow :=
  { row0 with id := 2, priority := 1 }

/-- The sample row after a retryable failure at time `7`
(`attempt 1 < max_retries 3`, backoff `2^1 = 2` seconds). -/
def row0Retry : JobRow :=
  { row0 with status := Status.pending, run_at := 7 + 1000 * delay_secs 1,
              attempt := 2, error_message := some "boom",
              error_kind := some ErrorKind.retryable,
              worker_id := none, lease_expires_at := none, updated_at := 7 }

/-- A row whose 63rd retry makes `2i64.pow(attempt)` overflow. -/
def row63 : JobRow :=
  { row0 with attempt := 63, max_retries := 100 }

/-- A row whose 64th retry wraps the power to zero (release builds). -/
def row64 : JobRow :=
  { row0 with attempt := 64, max_retries := 100 }

/-- The sample row right after being claimed by `"w1"` at time `5`. -/
def row0Claimed : JobRow :=
  { row0 with status := Status.running, worker_id := some "w1",
              lease_expires_at := some (5 + 60000), updated_at := 5 }

/-- A batch of `claim_ready` calls executed as the serialization of
concurrent claimers: each call is one atomic SQL statement (row locks +
`SKIP LOCKED` serialize concurrent claimers on each row), so a set of
concurrent calls acts on the table as some sequence of atomic claims. -/
def run_claims (calls : List (String × Nat)) (now lease_ms : Int)
    (db : Db) : List (List ClaimedJob) × Db :=
  match calls with
  | [] => ([], db)
  | (w, lim) :: rest =>
    let step := claim_ready db w lim now lease_ms
    let next := run_claims rest now lease_ms step.2
    (step.1 :: next.1, next.2)

/-- Mapping a per-row update over the table preserves any projection the
update itself preserves. -/
theorem map_update_project {β : Type} (g : JobRow → β) (f : JobRow → JobRow)
    (p : JobRow → Prop) [DecidablePred p] (db : Db)
    (h : ∀ r, g (f r) = g r) :
    (db.map fun r => if p r then f r else r).map g = db.map g := by
  rw [List.map_map]
  apply List.map_congr_left
  intro r _
  by_cases hp : p r <;> simp [hp, h r]

/-- A single store operation never puts `failed` into a row: every branch
of every `UPDATE` writes one of pending, running, succeeded, dead_letter
or leaves the row alone. -/
theorem applyOp_no_failed (op : StoreOp) (db : Db)
    (h : ∀ r ∈ db, r.status ≠ Status.failed) :
    ∀ s ∈ applyOp op db, s.status ≠ Status.failed := by
  intro s hs
  cases op with
  | claim w lim now lms =>
    simp only [applyOp, claim_ready] at hs
    rcases List.mem_map.1 hs with ⟨r, hr, rfl⟩
    split
    · exact fun hc => Status.noConfusion hc
    · exact h r hr
  | succeed id now =>
    simp only [applyOp, mark_succeeded] at hs
    rcases List.mem_map.1 hs with ⟨r, hr, rfl⟩
    split
    · exact fun hc => Status.noConfusion hc
    · exact h r hr
  | fail id e k now =>
    rcases hfind : db.find? (fun r => r.id == id) with _ | job
    · simp only [applyOp, mark_failed, hfind, Option.getD_none] at hs
      exact h s hs
    · cases k with
      | Retryable =>
        simp only [applyOp, mark_failed, hfind] at hs
        by_cases hlt : job.attempt < job.max_retries
        · rw [if_pos hlt] at hs
          by_cases hok : duration_seconds_ok (delay_secs job.attempt) = true
          · rw [if_pos hok, Option.getD_some] at hs
            rcases List.mem_map.1 hs with ⟨r, hr, rfl⟩
            split
            · exact fun hc => Status.noConfusion hc
            · exact h r hr
          · rw [if_neg hok, Option.getD_none] at hs
            exact h s hs
        · rw [if_neg hlt, Option.getD_some] at hs
          rcases List.mem_map.1 hs with ⟨r, hr, rfl⟩
          split
          · exact fun hc => Status.noConfusion hc
          · exact h r hr
      | NonRetryable =>
        simp only [applyOp, mark_failed, hfind, Option.getD_some] at hs
        rcases List.mem_map.1 hs with ⟨r, hr, rfl⟩
        split
        · exact fun hc => Status.noConfusion hc
        · exact h r hr
  | beat id now lms =>
    simp only [applyOp, heartbeat] at hs
    rcases List.mem_map.1 hs with ⟨r, hr, rfl⟩
    split
    · exact h r hr
    · exact h r hr
  | reclaim now =>
    simp only [applyOp, reclaim_expired] at hs
    rcases List.mem_map.1 hs with ⟨r, hr, rfl⟩
    split
    · exact fun hc => Status.noConfusion hc
    · exact h r hr

/-- C10: along any sequence of store operations starting from a table
with no `failed` row (in particular from freshly enqueued pending jobs),
no row ever has `status = 'failed'`, and the `failed` counter of
`stats()` stays `0` — the enum value exists but is never written. -/
theorem C10_failed_status_never_written (ops : List StoreOp) (db : Db)
    (h : ∀ r ∈ db, r.status ≠ Status.failed) :
    (∀ r ∈ applyOps ops db, r.status ≠ Status.failed) ∧
      (stats (applyOps ops db)).failed = 0 := by
  have main : ∀ r ∈ applyOps ops db, r.status ≠ Status.failed := by
    induction ops generalizing db with
    | nil => exact h
    | cons op rest ih =>
      exact ih (applyOp op db) (applyOp_no_failed op db h)
  refine ⟨main, ?_⟩
  simp only [stats]
  rw [List.countP_eq_zero]
  intro r hr
  simpa using main r hr

/-- C10 witness: a concrete run (claim, fail retryably, reclaim) from the
sample pending row never shows a `failed` status. -/
theorem C10_witness :
    (∀ r ∈ applyOps
        [StoreOp.claim "w1" 5 0 60000,
         StoreOp.fail 1 "boom" FailureKind.Retryable 10,
         StoreOp.reclaim 99] [row0],
      r.status ≠ Status.failed) ∧
      (stats (applyOps
        [StoreOp.claim "w1" 5 0 60000,
         StoreOp.fail 1 "boom" FailureKind.Retryable 10,
         StoreOp.reclaim 99] [row0])).failed = 0 :=
  C10_failed_status_never_written _ [row0] (by decide)

/-- C6 counterexample: `claim_ready` is a state write (the sample row's
status moves pending → running) yet the row's `version` stays `1` — the
SQL `UPDATE` of `claim_ready` never touches the `version` column, so the
claimed "version is bumped on every state write" fails on this call. -/
theorem C6_claim_write_does_not_bump_version :
    ((claim_ready [row0] "w1" 1 5 60000).2.map fun r => (r.status, r.version))
      = [(Status.running, 1)] ∧ row0.version = 1 := by
  constructor
  · rfl
  · rfl

/-- C6 amended: no store operation modifies `version` at all — the
row-by-row multiset of versions is exactly preserved by `claim_ready`,
`mark_succeeded`, `mark_failed`, `heartbeat` and `reclaim_expired`, so
`version` is (only trivially) monotone and keeps its initial value. -/
theorem C6_version_constant (op : StoreOp) (db : Db) :
    (applyOp op db).map JobRow.version = db.map JobRow.version := by
  cases op with
  | claim w lim now lms =>
    exact map_update_project _ _ _ db fun r => rfl
  | succeed id now =>
    exact map_update_project _ _ _ db fun r => rfl
  | fail id e k now =>
    show ((mark_failed db id e k now).getD db).map JobRow.version = _
    unfold mark_failed
    cases db.find? (fun r => r.id == id) with
    | none => rfl
    | some job =>
      cases k with
      | Retryable =>
        dsimp only
        by_cases hlt : job.attempt < job.max_retries
        · rw [if_pos hlt]
          by_cases hok : duration_seconds_ok (delay_secs job.attempt) = true
          · rw [if_pos hok, Option.getD_some]
            exact map_update_project _ _ _ db fun r => rfl
          · rw [if_neg hok, Option.getD_none]
        · rw [if_neg hlt, Option.getD_some]
          exact map_update_project _ _ _ db fun r => rfl
      | NonRetryable =>
        dsimp only
        rw [Option.getD_some]
        exact map_update_project _ _ _ db fun r => rfl
  | beat id now lms =>
    exact map_update_project _ _ _ db fun r => rfl
  | reclaim now =>
    exact map_update_project _ _ _ db fun r => rfl

/-- Every row selected by the `claimable` CTE is a pending row of the
table that is due to run. -/
theorem mem_selectRows {db : Db} {now : Int} {lim : Nat} {s : JobRow}
    (hs : s ∈ selectRows db now lim) :
    s ∈ db ∧ s.status = Status.pending ∧ s.run_at ≤ now := by
  have h1 : s ∈ List.insertionSort claimLE (db.filter (ready now)) :=
    List.mem_of_mem_take hs
  have h2 : s ∈ db.filter (ready now) := (List.mem_insertionSort claimLE).1 h1
  rcases List.mem_filter.1 h2 with ⟨hdb, hready⟩
  simp only [ready, Bool.and_eq_true, decide_eq_true_eq] at hready
  exact ⟨hdb, hready.1, hready.2⟩

/-- With pairwise-distinct ids (the primary key), a row of the table is
determined by its id. -/
theorem eq_of_mem_of_id_eq {db : Db} (hnd : (db.map JobRow.id).Nodup)
    {r s : JobRow} (hr : r ∈ db) (hs : s ∈ db) (h : r.id = s.id) : r = s :=
  List.inj_on_of_nodup_map hnd hr hs h

/-- A row a per-row `UPDATE` does not select survives unchanged. -/
theorem mem_map_update_self {f : JobRow → JobRow} {p : JobRow → Prop}
    [DecidablePred p] {db : Db} {r : JobRow} (hr : r ∈ db) (hp : ¬ p r) :
    r ∈ db.map fun t => if p t then f t else t := by
  refine List.mem_map.2 ⟨r, hr, ?_⟩
  simp only [if_neg hp]

/-- C3 counterexample: on a dead-lettered (terminal) row, a later
`mark_succeeded` overwrites the status with `succeeded` — the `UPDATE`
carries no status guard, so "subsequent `mark_*` calls do not change
status" fails on this input. -/
theorem C3_mark_succeeded_overwrites_dead_letter :
    rowDead.status = Status.dead_letter ∧
      (mark_succeeded [rowDead] 1 9).map JobRow.status = [Status.succeeded] :=
  ⟨rfl, rfl⟩

/-- C3 amended: a job in a terminal status (succeeded or dead_letter) is
left entirely unchanged by `claim_ready` (given primary-key-distinct
ids), `heartbeat` and `reclaim_expired`; terminal stability does NOT
extend to `mark_succeeded`/`mark_failed`, whose updates are unconditional
on the current status (see the counterexample). -/
theorem C3_terminal_stable_except_marks (db : Db) (w : String) (lim : Nat)
    (now lease_ms : Int) (job_id : Nat)
    (hnd : (db.map JobRow.id).Nodup) :
    ∀ r ∈ db, (r.status = Status.succeeded ∨ r.status = Status.dead_letter) →
      r ∈ (claim_ready db w lim now lease_ms).2 ∧
      r ∈ heartbeat db job_id now lease_ms ∧
      r ∈ (reclaim_expired db now).2 := by
  intro r hr ht
  have hrun : r.status ≠ Status.running := by
    rcases ht with h | h <;> rw [h] <;> exact fun hc => Status.noConfusion hc
  have hpend : r.status ≠ Status.pending := by
    rcases ht with h | h <;> rw [h] <;> exact fun hc => Status.noConfusion hc
  refine ⟨?_, ?_, ?_⟩
  · apply mem_map_update_self hr
    intro hmem
    rcases List.mem_map.1 hmem with ⟨s, hsSel, hsid⟩
    rcases mem_selectRows hsSel with ⟨hsdb, hspend, _⟩
    have hsr : s = r := eq_of_mem_of_id_eq hnd hsdb hr hsid
    rw [hsr] at hspend
    exact hpend hspend
  · apply mem_map_update_self hr
    rintro ⟨_, hc⟩
    exact hrun hc
  · apply mem_map_update_self hr
    intro hc
    simp only [expired, Bool.and_eq_true, decide_eq_true_eq] at hc
    exact hrun hc.1

/-- C3 witness: the concrete dead-lettered row is untouched by a claim
sweep, a heartbeat and a reclaim. -/
theorem C3_witness :
    rowDead ∈ (claim_ready [rowDead] "w2" 3 5 60000).2 ∧
      rowDead ∈ heartbeat [rowDead] 1 5 60000 ∧
      rowDead ∈ (reclaim_expired [rowDead] 5).2 :=
  C3_terminal_stable_except_marks [rowDead] "w2" 3 5 60000 1 (by decide)
    rowDead (by decide) (Or.inr rfl)

/-- C4 counterexample: completing a running job with `mark_succeeded`
leaves `worker_id` and `lease_expires_at` set while the status becomes
`succeeded` — the `UPDATE` never clears them, so
`status = running ⇔ worker_id ≠ null` fails after the call. -/
theorem C4_mark_succeeded_keeps_worker :
    leaseInv [rowRun] ∧ ¬ leaseInv (mark_succeeded [rowRun] 1 9) := by
  exact ⟨by decide, by decide⟩

/-- C4 amended: the lease invariant
`status = running ⇔ worker_id ≠ null ⇔ lease_expires_at ≠ null` is
preserved by `claim_ready`, `heartbeat`, `reclaim_expired`, and by
`mark_failed` whenever it takes the retry branch; it is NOT preserved by
`mark_succeeded`, nor by `mark_failed`'s dead-letter branch, both of
which leave `worker_id`/`lease_expires_at` untouched (counterexample). -/
theorem C4_lease_inv_partial (db : Db) (w : String) (lim : Nat)
    (now lease_ms : Int) (job_id : Nat) (error : String)
    (hinv : leaseInv db) :
    leaseInv (claim_ready db w lim now lease_ms).2 ∧
    leaseInv (heartbeat db job_id now lease_ms) ∧
    leaseInv (reclaim_expired db now).2 ∧
    (∀ db', (∀ r ∈ db, r.id = job_id → r.attempt < r.max_retries) →
      mark_failed db job_id error FailureKind.Retryable now = some db' →
      leaseInv db') := by
  refine ⟨?_, ?_, ?_, ?_⟩
  · intro s hs
    simp only [claim_ready] at hs
    rcases List.mem_map.1 hs with ⟨r, hr, rfl⟩
    split
    · refine ⟨⟨fun _ => ?_, fun _ => rfl⟩, ⟨fun _ => ?_, fun _ => rfl⟩⟩
      · exact fun hc => Option.noConfusion hc
      · exact fun hc => Option.noConfusion hc
    · exact hinv r hr
  · intro s hs
    simp only [heartbeat] at hs
    rcases List.mem_map.1 hs with ⟨r, hr, rfl⟩
    split
    · next hp =>
      refine ⟨(hinv r hr).1, ⟨fun _ => ?_, fun _ => hp.2⟩⟩
      exact fun hc => Option.noConfusion hc
    · exact hinv r hr
  · intro s hs
    simp only [reclaim_expired] at hs
    rcases List.mem_map.1 hs with ⟨r, hr, rfl⟩
    split
    · refine ⟨⟨fun hc => ?_, fun hc => ?_⟩, ⟨fun hc => ?_, fun hc => ?_⟩⟩
      · exact absurd hc (fun h => Status.noConfusion h)
      · exact absurd rfl hc
      · exact absurd hc (fun h => Status.noConfusion h)
      · exact absurd rfl hc
    · exact hinv r hr
  · intro db' hatt heq
    rcases hfind : db.find? (fun r => r.id == job_id) with _ | job
    · rw [mark_failed, hfind] at heq
      exact Option.noConfusion heq
    · have hjob : job ∈ db := List.mem_of_find?_eq_some hfind
      have hjid : job.id = job_id := by
        have := List.find?_some hfind
        simpa using this
      have hlt : job.attempt < job.max_retries := hatt job hjob hjid
      rw [mark_failed, hfind] at heq
      simp only [if_pos hlt] at heq
      by_cases hok : duration_seconds_ok (delay_secs job.attempt) = true
      · rw [if_pos hok] at heq
        obtain rfl := Option.some.inj heq
        intro s hs
        rcases List.mem_map.1 hs with ⟨r, hr, rfl⟩
        split
        · refine ⟨⟨fun hc => ?_, fun hc => ?_⟩, ⟨fun hc => ?_, fun hc => ?_⟩⟩
          · exact absurd hc (fun h => Status.noConfusion h)
          · exact absurd rfl hc
          · exact absurd hc (fun h => Status.noConfusion h)
          · exact absurd rfl hc
        · exact hinv r hr
      · rw [if_neg hok] at heq
        exact absurd heq (fun hc => Option.noConfusion hc)

/-- C4 witness: the invariant survives a concrete claim, heartbeat,
reclaim, and retryable `mark_failed` on the sample running row. -/
theorem C4_witness :
    leaseInv (claim_ready [rowRun] "w2" 3 5 60000).2 ∧
    leaseInv (heartbeat [rowRun] 1 5 60000) ∧
    leaseInv (reclaim_expired [rowRun] 5).2 ∧
    (∀ db', (∀ r ∈ [rowRun], r.id = 1 → r.attempt < r.max_retries) →
      mark_failed [rowRun] 1 "boom" FailureKind.Retryable 5 = some db' →
      leaseInv db') :=
  C4_lease_inv_partial [rowRun] "w2" 3 5 60000 1 "boom" (by decide)

/-- C8 counterexample: reclaiming the expired sample row resets it to
pending but also rewrites `updated_at` (from `0` to `100`), so the claim
that "no other field of the reset rows changes" fails as stated. -/
theorem C8_reclaim_touches_updated_at :
    (reclaim_expired [rowExp] 100).1 = 1 ∧
      (reclaim_expired [rowExp] 100).2.map JobRow.updated_at = [100] ∧
      rowExp.updated_at = 0 :=
  ⟨rfl, rfl, rfl⟩

/-- C8 amended: `reclaim_expired` resets exactly the running rows with
`lease_expires_at < now` to pending with `worker_id`/`lease_expires_at`
cleared and `updated_at = now`, leaving every other field of those rows
(in particular `attempt`) unchanged; it returns the number of such rows;
all other rows — in particular succeeded and dead_letter ones — are left
entirely untouched. -/
theorem C8_reclaim_characterization (db : Db) (now : Int) :
    (reclaim_expired db now).1 = (db.filter (expired now)).length ∧
    (∀ r ∈ db, expired now r = true →
      { r with status := Status.pending, worker_id := none,
               lease_expires_at := none, updated_at := now }
        ∈ (reclaim_expired db now).2) ∧
    (∀ r ∈ db, expired now r = false → r ∈ (reclaim_expired db now).2) ∧
    (∀ r ∈ db, (r.status = Status.succeeded ∨ r.status = Status.dead_letter) →
      r ∈ (reclaim_expired db now).2) := by
  refine ⟨List.countP_eq_length_filter _ _, ?_, ?_, ?_⟩
  · intro r hr hexp
    refine List.mem_map.2 ⟨r, hr, ?_⟩
    simp only [if_pos hexp]
  · intro r hr hexp
    apply mem_map_update_self hr
    rw [hexp]
    exact fun hc => Bool.noConfusion hc
  · intro r hr ht
    apply mem_map_update_self hr
    intro hc
    simp only [expired, Bool.and_eq_true, decide_eq_true_eq] at hc
    rcases ht with h | h <;> rw [h] at hc <;> exact Status.noConfusion hc.1

/-- C8 witness: the concrete expired row is reset (with `attempt` kept at
`1`) and counted. -/
theorem C8_witness :
    rowExpReset ∈ (reclaim_expired [rowExp] 100).2 :=
  (C8_reclaim_characterization [rowExp] 100).2.1 rowExp (by decide) (by decide)

/-- C9: `heartbeat` rewrites `lease_expires_at` to `now + lease_ms`
exactly on the rows whose id matches and whose status is still
`running`; if no such row exists (wrong status or missing id) the table
is completely unchanged — and the operation is total (the source returns
`Ok(())` regardless of how many rows matched), a silent no-op. -/
theorem C9_heartbeat_iff_running (db : Db) (job_id : Nat)
    (now lease_ms : Int) :
    ((∀ r ∈ db, r.id = job_id → r.status ≠ Status.running) →
      heartbeat db job_id now lease_ms = db) ∧
    (∀ r ∈ db, r.id = job_id → r.status = Status.running →
      { r with lease_expires_at := some (now + lease_ms), updated_at := now }
        ∈ heartbeat db job_id now lease_ms) ∧
    (∀ r ∈ db, ¬ (r.id = job_id ∧ r.status = Status.running) →
      r ∈ heartbeat db job_id now lease_ms) := by
  refine ⟨?_, ?_, ?_⟩
  · intro h
    unfold heartbeat
    have hcong : ∀ r ∈ db,
        (if r.id = job_id ∧ r.status = Status.running then
          { r with lease_expires_at := some (now + lease_ms),
                   updated_at := now }
         else r) = id r := by
      intro r hr
      rw [if_neg (fun hc => h r hr hc.1 hc.2)]
      rfl
    rw [List.map_congr_left hcong, List.map_id]
  · intro r hr h1 h2
    refine List.mem_map.2 ⟨r, hr, ?_⟩
    simp only [if_pos (And.intro h1 h2)]
  · intro r hr hno
    exact mem_map_update_self hr hno

/-- C9 witness: a heartbeat refreshes the lease of the concrete running
row and is an exact no-op on the dead-lettered table. -/
theorem C9_witness :
    ({ rowRun with lease_expires_at := some (5 + 60000), updated_at := 5 }
      ∈ heartbeat [rowRun] 1 5 60000) ∧
      heartbeat [rowDead] 1 5 60000 = [rowDead] :=
  ⟨(C9_heartbeat_iff_running [rowRun] 1 5 60000).2.1 rowRun (by decide)
      rfl rfl,
   (C9_heartbeat_iff_running [rowDead] 1 5 60000).1 (by decide)⟩

/-- With distinct ids, the `FOR UPDATE` fetch of `mark_failed` retrieves
exactly the member row with the requested id. -/
theorem find?_of_mem_nodup : ∀ {db : Db}, (db.map JobRow.id).Nodup →
    ∀ {r : JobRow}, r ∈ db → db.find? (fun t => t.id == r.id) = some r := by
  intro db
  induction db with
  | nil => intro _ r hr; cases hr
  | cons x xs ih =>
    intro hnd r hr
    rw [List.map_cons, List.nodup_cons] at hnd
    rcases List.mem_cons.1 hr with rfl | hr'
    · exact List.find?_cons_of_pos _ (by simp)
    · refine (List.find?_cons_of_neg _ ?_).trans (ih hnd.2 hr')
      simp only [beq_iff_eq]
      intro h
      exact hnd.1 (h ▸ List.mem_map_of_mem JobRow.id hr')

/-- C1 counterexample: at `attempt = 63` (a legal row state, reachable
when `max_retries ≥ 64`) a retryable `mark_failed` writes nothing at
all: debug builds panic in `pow`, release builds wrap the power to
`i64::MIN` on which `chrono::Duration::seconds` panics; either way the
transaction rolls back, so the claimed retry update (status = pending,
`attempt + 1`, new `run_at`) does not happen even though
`kind = Retryable` and `attempt < max_retries`. -/
theorem C1_retry_rolls_back_at_63 :
    row63.attempt < row63.max_retries ∧
      mark_failed [row63] 1 "boom" FailureKind.Retryable 0 = none := by
  exact ⟨by decide, by decide⟩

/-- C1 amended: `mark_failed` on an existing row (distinct primary keys
assumed) follows the failure protocol: when the kind is Retryable,
`attempt < max_retries` and the backoff duration is representable for
chrono (true for every `attempt ≤ 62`; false at `attempt = 63`), it
reschedules the row as pending at `now + backoff` with `attempt + 1`,
`worker_id`/`lease_expires_at` cleared and the error recorded with kind
retryable; when the duration is out of bounds the call panics, the
transaction rolls back and nothing at all is written; in every other
case (NonRetryable kind, or `attempt >= max_retries`) it dead-letters
the row, recording the message and the given kind while leaving
`attempt` (and every other column except status / error columns /
`updated_at`) unchanged.  Rows with a different id are untouched in
every case. -/
theorem C1_mark_failed_protocol (db : Db) (error : String)
    (kind : FailureKind) (now : Int) (hnd : (db.map JobRow.id).Nodup)
    (r : JobRow) (hr : r ∈ db) :
    (kind = FailureKind.Retryable → r.attempt < r.max_retries →
      duration_seconds_ok (delay_secs r.attempt) = true →
      ∃ db', mark_failed db r.id error kind now = some db' ∧
        { r with status := Status.pending,
                 run_at := now + 1000 * delay_secs r.attempt,
                 attempt := r.attempt + 1,
                 error_message := some error,
                 error_kind := some ErrorKind.retryable,
                 worker_id := none, lease_expires_at := none,
                 updated_at := now } ∈ db' ∧
        (∀ s ∈ db, s.id ≠ r.id → s ∈ db')) ∧
    (kind = FailureKind.Retryable → r.attempt < r.max_retries →
      duration_seconds_ok (delay_secs r.attempt) = false →
      mark_failed db r.id error kind now = none) ∧
    ((kind = FailureKind.NonRetryable ∨ r.max_retries ≤ r.attempt) →
      ∃ db', mark_failed db r.id error kind now = some db' ∧
        { r with status := Status.dead_letter,
                 error_message := some error,
                 error_kind := some (error_kind_of kind),
                 updated_at := now } ∈ db' ∧
        (∀ s ∈ db, s.id ≠ r.id → s ∈ db')) := by
  have hfind := find?_of_mem_nodup hnd hr
  refine ⟨?_, ?_, ?_⟩
  · rintro rfl hlt hok
    have heq : mark_failed db r.id error FailureKind.Retryable now
        = some (db.map fun t =>
          if t.id = r.id then
            { t with status := Status.pending,
                     run_at := now + 1000 * delay_secs r.attempt,
                     attempt := t.attempt + 1,
                     error_message := some error,
                     error_kind := some ErrorKind.retryable,
                     worker_id := none, lease_expires_at := none,
                     updated_at := now }
          else t) := by
      rw [mark_failed, hfind]
      simp only [if_pos hlt, if_pos hok]
    refine ⟨_, heq, ?_, ?_⟩
    · refine List.mem_map.2 ⟨r, hr, ?_⟩
      simp
    · intro s hs hne
      exact mem_map_update_self hs hne
  · rintro rfl hlt hok
    have hnok : ¬ (duration_seconds_ok (delay_secs r.attempt) = true) := by
      rw [hok]
      exact fun hc => Bool.noConfusion hc
    rw [mark_failed, hfind]
    simp only [if_pos hlt, if_neg hnok]
  · intro hcase
    have heq : mark_failed db r.id error kind now
        = some (db.map fun t =>
          if t.id = r.id then
            { t with status := Status.dead_letter,
                     error_message := some error,
                     error_kind := some (error_kind_of kind),
                     updated_at := now }
          else t) := by
      rcases hcase with rfl | hge
      · rw [mark_failed, hfind]
      · cases kind with
        | Retryable =>
          rw [mark_failed, hfind]
          simp only [if_neg (not_lt.2 hge)]
        | NonRetryable =>
          rw [mark_failed, hfind]
    refine ⟨_, heq, ?_, ?_⟩
    · refine List.mem_map.2 ⟨r, hr, ?_⟩
      simp
    · intro s hs hne
      exact mem_map_update_self hs hne

/-- C1 witness: the retry branch on the sample pending row
(`attempt 1 < max_retries 3`, backoff 2 seconds, well inside chrono's
bounds). -/
theorem C1_witness :
    ∃ db', mark_failed [row0] row0.id "boom" FailureKind.Retryable 7
        = some db' ∧ row0Retry ∈ db' ∧
      (∀ s ∈ [row0], s.id ≠ row0.id → s ∈ db') :=
  (C1_mark_failed_protocol [row0] "boom" FailureKind.Retryable 7
    (by decide) row0 (by decide)).1 rfl (by decide) (by decide)

/-- In the overflow-free exponent range, Rust's wrapped `i64` power is
the mathematical power. -/
theorem wrap_i64_pow_eq {n : Nat} (h : n ≤ 62) :
    wrap_i64 (2 ^ n) = (2 : Int) ^ n := by
  unfold wrap_i64
  have h1 : ((2 ^ n : Nat) : Int) = (2 : Int) ^ n := by push_cast; ring
  rw [h1]
  have h2 : (0 : Int) ≤ 2 ^ n + 2 ^ 63 := by positivity
  have h3 : (2 : Int) ^ n + 2 ^ 63 < 2 ^ 64 := by
    have hle : (2 : Int) ^ n ≤ 2 ^ 62 :=
      pow_le_pow_right₀ (by norm_num) h
    have : (2 : Int) ^ 62 + 2 ^ 63 < 2 ^ 64 := by norm_num
    linarith
  rw [Int.emod_eq_of_lt h2 h3]
  ring

/-- For small nonnegative attempts the `u32` cast is the identity. -/
theorem u32_cast_small {a : Int} (h0 : 0 ≤ a) (h : a ≤ 62) :
    u32_cast a = a.toNat := by
  unfold u32_cast
  rw [Int.emod_eq_of_lt h0 (by linarith)]

/-- A backoff of at most one hour is far inside chrono's `TimeDelta`
bounds, so `Duration::seconds` does not panic on it. -/
theorem duration_seconds_ok_of_bounds {s : Int} (h1 : 1 ≤ s)
    (h2 : s ≤ 3600) : duration_seconds_ok s = true := by
  simp only [duration_seconds_ok, Bool.and_eq_true, decide_eq_true_eq]
  constructor <;> linarith

/-- C5 amended: on a retryable failure taken as a retry with
`0 ≤ attempt ≤ 62` (no `i64` overflow in `2i64.pow(attempt)`), the
transaction commits, the new `run_at` is `now + min(2^attempt, 3600)`
seconds and the delay lies in `[1 s, 3600 s]`.  Beyond that the claim
fails: at `attempt = 63` the call panics (debug: `pow` overflow;
release: `Duration::seconds(i64::MIN)` out of bounds) and the rolled
back transaction schedules nothing, and at `attempt ≥ 64` release
builds wrap the power to `0` and commit a zero-second delay (see the
counterexample). -/
theorem C5_backoff_bound (db : Db) (error : String) (now : Int)
    (hnd : (db.map JobRow.id).Nodup) (r : JobRow) (hr : r ∈ db)
    (h0 : 0 ≤ r.attempt) (h62 : r.attempt ≤ 62)
    (hlt : r.attempt < r.max_retries) :
    ∃ db', mark_failed db r.id error FailureKind.Retryable now
        = some db' ∧
      ∃ r', r' ∈ db' ∧ r'.id = r.id ∧
        r'.run_at = now + 1000 * min ((2 : Int) ^ r.attempt.toNat) 3600 ∧
        1000 ≤ r'.run_at - now ∧ r'.run_at - now ≤ 3600 * 1000 := by
  have hfind := find?_of_mem_nodup hnd hr
  have hd : delay_secs r.attempt = min ((2 : Int) ^ r.attempt.toNat) 3600 := by
    unfold delay_secs
    rw [u32_cast_small h0 h62, wrap_i64_pow_eq]
    exact Int.toNat_le.2 (by exact_mod_cast h62)
  have hone : (1 : Int) ≤ (2 : Int) ^ r.attempt.toNat := by
    have := pow_le_pow_right₀ (by norm_num : (1 : Int) ≤ 2)
      (Nat.zero_le r.attempt.toNat)
    simpa using this
  have hd1 : (1 : Int) ≤ delay_secs r.attempt := by
    rw [hd]; exact le_min hone (by norm_num)
  have hd2 : delay_secs r.attempt ≤ 3600 := by
    rw [hd]; exact min_le_right _ _
  have heq : mark_failed db r.id error FailureKind.Retryable now
      = some (db.map fun t =>
        if t.id = r.id then
          { t with status := Status.pending,
                   run_at := now + 1000 * delay_secs r.attempt,
                   attempt := t.attempt + 1,
                   error_message := some error,
                   error_kind := some ErrorKind.retryable,
                   worker_id := none, lease_expires_at := none,
                   updated_at := now }
        else t) := by
    rw [mark_failed, hfind]
    simp only [if_pos hlt, if_pos (duration_seconds_ok_of_bounds hd1 hd2)]
  refine ⟨_, heq, ?_⟩
  · refine ⟨{ r with status := Status.pending,
                     run_at := now + 1000 * delay_secs r.attempt,
                     attempt := r.attempt + 1,
                     error_message := some error,
                     error_kind := some ErrorKind.retryable,
                     worker_id := none, lease_expires_at := none,
                     updated_at := now }, ?_, rfl, ?_, ?_, ?_⟩
    · refine List.mem_map.2 ⟨r, hr, ?_⟩
      simp
    · rw [hd]
    · have : now + 1000 * delay_secs r.attempt - now
          = 1000 * delay_secs r.attempt := by ring
      rw [this]
      linarith
    · have : now + 1000 * delay_secs r.attempt - now
          = 1000 * delay_secs r.attempt := by ring
      rw [this]
      linarith

/-- C5 counterexample: the backoff bound fails beyond `attempt = 62`.
At `attempt = 63` the release-mode power wraps to `i64::MIN`, on which
`chrono::Duration::seconds` panics (debug builds already panic in
`pow`), so the transaction rolls back and no retry with any delay is
scheduled.  At `attempt = 64` a release build wraps the power to `0`
and the store commits a retry with `run_at = now`: a zero-second delay,
outside `[1 s, 3600 s]` and different from `min(2^64, 3600) = 3600`. -/
theorem C5_overflow_breaks_backoff :
    (delay_secs row63.attempt = -(2 ^ 63) ∧
      duration_seconds_ok (delay_secs row63.attempt) = false) ∧
    (row64.attempt < row64.max_retries ∧
      (mark_failed [row64] 1 "boom" FailureKind.Retryable 0).map
          (fun db' => db'.map fun r => (r.status, r.run_at, r.attempt))
        = some [(Status.pending, 0, 65)]) := by
  exact ⟨⟨by decide, by decide⟩, by decide, by decide⟩

/-- C5 witness: the sample row (`attempt = 1`) retries 2 seconds out. -/
theorem C5_witness :
    ∃ db', mark_failed [row0] row0.id "boom" FailureKind.Retryable 7
        = some db' ∧
      ∃ r', r' ∈ db' ∧ r'.id = row0.id ∧
        r'.run_at = 7 + 1000 * min ((2 : Int) ^ row0.attempt.toNat) 3600 ∧
        1000 ≤ r'.run_at - 7 ∧ r'.run_at - 7 ≤ 3600 * 1000 :=
  C5_backoff_bound [row0] "boom" 7 (by decide) row0 (by decide)
    (by decide) (by decide) (by decide)

/-- C2: `claim_ready` claims at most `limit` rows; what it returns is
exactly the `(priority ASC, run_at ASC)`-sorted prefix of the pending
rows due to run, projected to `(id, job_type, payload, version,
attempt)`; every selected row is rewritten to running with the caller's
`worker_id` and `lease_expires_at = now + lease_ms`; every row whose id
was not selected is byte-for-byte unchanged. -/
theorem C2_claim_ready_spec (db : Db) (w : String) (lim : Nat)
    (now lease_ms : Int) :
    ((claim_ready db w lim now lease_ms).1).length ≤ lim ∧
    (claim_ready db w lim now lease_ms).1
      = (selectRows db now lim).map toClaimed ∧
    List.Sorted claimLE (selectRows db now lim) ∧
    (∀ j ∈ (claim_ready db w lim now lease_ms).1, ∃ s ∈ db,
      s.status = Status.pending ∧ s.run_at ≤ now ∧ j = toClaimed s) ∧
    (∀ s ∈ selectRows db now lim,
      { s with status := Status.running, worker_id := some w,
               lease_expires_at := some (now + lease_ms),
               updated_at := now }
        ∈ (claim_ready db w lim now lease_ms).2) ∧
    (∀ s ∈ db, s.id ∉ (selectRows db now lim).map JobRow.id →
      s ∈ (claim_ready db w lim now lease_ms).2) := by
  refine ⟨?_, rfl, ?_, ?_, ?_, ?_⟩
  · simp only [claim_ready, List.length_map, selectRows, List.length_take]
    exact min_le_left _ _
  · exact List.Pairwise.sublist (List.take_sublist _ _)
      (List.sorted_insertionSort claimLE _)
  · intro j hj
    simp only [claim_ready] at hj
    rcases List.mem_map.1 hj with ⟨s, hsSel, rfl⟩
    rcases mem_selectRows hsSel with ⟨hsdb, hspend, hsrun⟩
    exact ⟨s, hsdb, hspend, hsrun, rfl⟩
  · intro s hsSel
    have hid : s.id ∈ (selectRows db now lim).map JobRow.id :=
      List.mem_map_of_mem JobRow.id hsSel
    refine List.mem_map.2 ⟨s, (mem_selectRows hsSel).1, ?_⟩
    simp only [if_pos hid]
  · intro s hs hni
    exact mem_map_update_self hs hni

/-- C2 witness: with one due pending row the claim returns it and the
table holds its running copy. -/
theorem C2_witness :
    row0Claimed ∈ (claim_ready [row0] "w1" 3 5 60000).2 ∧
      ((claim_ready [row0] "w1" 3 5 60000).1).length ≤ 3 :=
  ⟨(C2_claim_ready_spec [row0] "w1" 3 5 60000).2.2.2.2.1 row0 (by decide),
   (C2_claim_ready_spec [row0] "w1" 3 5 60000).1⟩

/-- `claim_ready` rewrites rows in place: the list of primary keys of the
table is untouched. -/
theorem claim_ids_preserved (db : Db) (w : String) (lim : Nat)
    (now lms : Int) :
    ((claim_ready db w lim now lms).2).map JobRow.id = db.map JobRow.id :=
  map_update_project _ _ _ db fun _ => rfl

/-- A running row is never selected by a claim (it is not pending), so it
survives `claim_ready` unchanged. -/
theorem running_survives_claim {db : Db} (hnd : (db.map JobRow.id).Nodup)
    {r : JobRow} (hr : r ∈ db) (hrun : r.status = Status.running)
    (w : String) (lim : Nat) (now lms : Int) :
    r ∈ (claim_ready db w lim now lms).2 := by
  apply mem_map_update_self hr
  intro hmem
  rcases List.mem_map.1 hmem with ⟨s, hsSel, hsid⟩
  rcases mem_selectRows hsSel with ⟨hsdb, hspend, _⟩
  have hsr : s = r := eq_of_mem_of_id_eq hnd hsdb hr hsid
  rw [hsr, hrun] at hspend
  exact Status.noConfusion hspend

/-- Every id a claim returns named a pending row of the input table. -/
theorem claim_result_pending {db : Db} {w : String} {lim : Nat}
    {now lms : Int} {j : ClaimedJob}
    (hj : j ∈ (claim_ready db w lim now lms).1) :
    ∃ s ∈ db, s.status = Status.pending ∧ j.id = s.id := by
  simp only [claim_ready] at hj
  rcases List.mem_map.1 hj with ⟨s, hsSel, rfl⟩
  exact ⟨s, (mem_selectRows hsSel).1, (mem_selectRows hsSel).2.1, rfl⟩

/-- Every id a claim returns is running (with that claim's update) in the
output table. -/
theorem claim_result_running {db : Db} {w : String} {lim : Nat}
    {now lms : Int} {j : ClaimedJob}
    (hj : j ∈ (claim_ready db w lim now lms).1) :
    ∃ r' ∈ (claim_ready db w lim now lms).2,
      r'.id = j.id ∧ r'.status = Status.running := by
  simp only [claim_ready] at hj ⊢
  rcases List.mem_map.1 hj with ⟨s, hsSel, rfl⟩
  have hid : s.id ∈ (selectRows db now lim).map JobRow.id :=
    List.mem_map_of_mem JobRow.id hsSel
  refine ⟨{ s with status := Status.running, worker_id := some w,
                   lease_expires_at := some (now + lms),
                   updated_at := now },
    List.mem_map.2 ⟨s, (mem_selectRows hsSel).1, ?_⟩, rfl, rfl⟩
  simp only [if_pos hid]

/-- A claim never returns the id of a row that is already running. -/
theorem claim_avoids_running {db : Db} {w : String} {lim : Nat}
    {now lms : Int} (hnd : (db.map JobRow.id).Nodup) {i : Nat}
    (hi : ∃ r ∈ db, r.id = i ∧ r.status = Status.running) :
    ∀ j ∈ (claim_ready db w lim now lms).1, j.id ≠ i := by
  rcases hi with ⟨r, hr, hri, hrun⟩
  intro j hj hji
  rcases claim_result_pending hj with ⟨s, hsdb, hspend, hjs⟩
  have hsir : s.id = r.id := (hjs.symm.trans hji).trans hri.symm
  have hsr : s = r := eq_of_mem_of_id_eq hnd hsdb hr hsir
  rw [hsr, hrun] at hspend
  exact Status.noConfusion hspend

/-- Once some row with id `i` is running, no later claim of the batch
ever returns `i`. -/
theorem run_claims_avoid_running (calls : List (String × Nat))
    (now lms : Int) :
    ∀ db : Db, (db.map JobRow.id).Nodup →
    ∀ i : Nat, (∃ r ∈ db, r.id = i ∧ r.status = Status.running) →
    ∀ out ∈ (run_claims calls now lms db).1, ∀ k ∈ out, k.id ≠ i := by
  induction calls with
  | nil =>
    intro db _ i _ out hout
    simp [run_claims] at hout
  | cons c rest ih =>
    rcases c with ⟨w, lim⟩
    intro db hnd i hi out hout
    simp only [run_claims] at hout
    rcases List.mem_cons.1 hout with rfl | hout'
    · exact claim_avoids_running hnd hi
    · rcases hi with ⟨r, hr, hri, hrun⟩
      have hnd' : (((claim_ready db w lim now lms).2).map JobRow.id).Nodup := by
        rw [claim_ids_preserved]; exact hnd
      have hr' : r ∈ (claim_ready db w lim now lms).2 :=
        running_survives_claim hnd hr hrun w lim now lms
      exact ih (claim_ready db w lim now lms).2 hnd' i ⟨r, hr', hri, hrun⟩
        out hout'

/-- C7: for any batch of `claim_ready` calls — concurrency modelled as
the serialization the per-row locks and single-statement transactions of
the source enforce — no job id appears in the results of two different
calls: each claimed row is running from the moment one claim takes it,
and claims never select running rows. -/
theorem C7_claim_exclusivity (calls : List (String × Nat))
    (now lms : Int) (db : Db) (hnd : (db.map JobRow.id).Nodup) :
    List.Pairwise (fun a b => ∀ j ∈ a, ∀ k ∈ b, j.id ≠ k.id)
      (run_claims calls now lms db).1 := by
  induction calls generalizing db with
  | nil => simp [run_claims]
  | cons c rest ih =>
    rcases c with ⟨w, lim⟩
    simp only [run_claims]
    have hnd' : (((claim_ready db w lim now lms).2).map JobRow.id).Nodup := by
      rw [claim_ids_preserved]; exact hnd
    refine List.Pairwise.cons ?_ (ih _ hnd')
    intro out hout j hj k hk
    rcases claim_result_running hj with ⟨r', hr', hrid, hrun⟩
    have hne := run_claims_avoid_running rest now lms _ hnd' j.id
      ⟨r', hr', hrid, hrun⟩ out hout k hk
    exact fun h => hne h.symm

/-- C7 witness: two claimers over two distinct pending rows return
disjoint id sets. -/
theorem C7_witness :
    List.Pairwise (fun a b => ∀ j ∈ a, ∀ k ∈ b, j.id ≠ k.id)
      (run_claims [("w1", 1), ("w2", 5)] 5 60000 [row0, row2]).1 :=
  C7_claim_exclusivity [("w1", 1), ("w2", 5)] 5 60000 [row0, row2]
    (by decide)

end Seesaw
